import Mathlib

/-!
# Verification of the beautederm catalog extractor

Shallow embedding of `src/extract_products.py`: the Section Parser
(`parse_product_details`), the Record Normalizer / Document Extractor
(`parse_html_file`), the Catalog Aggregator (`main`'s dedup loop) and the
column selection of the Tabular Exporter, together with theorems settling
the specification's claims about them.

HTML documents are modelled at the level of the queries the code performs
on the parsed soup: a description is its first paragraph's flattened text
plus the list of `details` elements, each carrying the result of
`find('summary')`, `find('span', class_='headline')` and
`find('div', class_='indent-content')`.
-/

namespace BeautedermExtract

/-- The `span class="headline"` inside a `summary`, modelled by the raw text
the code reads with `get_text(strip=True)` before stripping; `headline = none`
models `summary.find('span', class_='headline')` returning `None`. -/
structure SummaryTag where
  headline : Option String
deriving DecidableEq

/-- One `details` element of a description.  `summary = none` models
`details_tag.find('summary')` returning `None`; `content = none` models
`find('div', class_='indent-content')` returning `None` (a bs4 `Tag` is
always truthy, so `if content_div:` is a `None` test), and
`content = some texts` carries the flattened texts of the `p`, `li` and
`h3`-`h6` elements found inside the content div, in document order. -/
structure DetailsTag where
  summary : Option SummaryTag
  content : Option (List String)
deriving DecidableEq

/-- A parsed description fragment: the flattened text of the first `p`
found anywhere in the fragment (`none` when `find('p')` returns `None`),
and the `details` elements in document order. -/
structure Description where
  firstP : Option String
  detailsTags : List DetailsTag
deriving DecidableEq

/-- The embedded JSON product payload, with one `Option` field per
`product_json.get(...)` access the code performs.  `description` is the
already-parsed form of the description HTML; `none` covers both an absent
key and an empty fragment (both falsy in `if not description_html`). -/
structure RawProductPayload where
  id : Option Int
  title : Option String
  handle : Option String
  price : Option Int
  available : Option Bool
  type : Option String
  vendor : Option String
  tags : Option (List String)
  description : Option Description
  featured_image : Option String
deriving DecidableEq

/-- A SectionMap is a Python dict from section key to extracted text:
assignment overwrites (last wins), `get` returns `none` for absent keys. -/
def SectionMap := String → Option String

/-- The empty dict `{}`. -/
def emptySectionMap : SectionMap := fun _ => none

/-- Dict assignment `m[k] = v`. -/
def mapInsert (m : SectionMap) (k v : String) : SectionMap :=
  fun k' => if k' = k then some v else m k'

/-- Python `str.strip()` on the character list: drop leading and trailing
whitespace. -/
def pyStrip (l : List Char) : List Char :=
  ((l.dropWhile Char.isWhitespace).reverse.dropWhile Char.isWhitespace).reverse

/-- Python `str.strip()` as a String operation. -/
def pyStripStr (s : String) : String :=
  String.mk (pyStrip s.data)

/-- Python `str.lower()` (ASCII case mapping). -/
def pyLower (s : String) : String :=
  String.mk (s.data.map Char.toLower)

/-- `headline_span.get_text(strip=True).lower().replace(' ', '_')`:
strip, lowercase, then replace every single space character by an
underscore. -/
def normalizeHeadline (s : String) : String :=
  String.mk ((pyLower (pyStripStr s)).data.map (fun c => if c = ' ' then '_' else c))

/-- The section key of a `summary`: the normalized headline text, or the
fallback `general_details` when the headline span is absent. -/
def headlineKey (s : SummaryTag) : String :=
  match s.headline with
  | some h => normalizeHeadline h
  | none => "general_details"

/-- `'\n'.join(texts).strip()`. -/
def joinedTexts (texts : List String) : String :=
  pyStripStr (String.intercalate "\n" texts)

/-- One iteration of the `for details_tag in desc_soup.find_all('details')`
loop: skip when there is no `summary`, otherwise insert the joined content
texts under the headline key when the content div exists. -/
def stepDetails (m : SectionMap) (dt : DetailsTag) : SectionMap :=
  match dt.summary with
  | none => m
  | some s =>
    match dt.content with
    | none => m
    | some texts => mapInsert m (headlineKey s) (joinedTexts texts)

/-- `parse_product_details`: empty/absent fragment gives `{}`; otherwise
the map holds the first paragraph's text (or `''`) under `description`
and then folds the `details` loop over the fragment's `details` tags. -/
def parseProductDetails (d : Option Description) : SectionMap :=
  match d with
  | none => emptySectionMap
  | some d =>
    d.detailsTags.foldl stepDetails
      (mapInsert emptySectionMap "description" (d.firstP.getD ""))

/-- One row of the `product_info` dictionary built per item.  Field names
follow the dict keys; the `price ($)` key is the `price_dollars` field. -/
structure ProductInfo where
  product_id : Option Int
  title : Option String
  price_dollars : String
  stock_status : String
  product_type : Option String
  vendor : Option String
  tags : String
  description : Option String
  benefits : Option String
  how_to_use : Option String
  ingredients : Option String
  specifications : Option String
  care_instructions : Option String
  inclusions : Option String
  product_url : String
  primary_image_url : Option String
deriving DecidableEq

/-- Two-digit rendering of the cents part produced by the `:.2f` format. -/
def pad2 (n : Nat) : String :=
  if n < 10 then "0" ++ toString n else toString n

/-- Fixed-point rendering of a non-negative minor-unit amount:
`n / 100` dollars, then `.`, then two cent digits. -/
def formatCents (n : Nat) : String :=
  toString (n / 100) ++ "." ++ pad2 (n % 100)

/-- `f"{price:.2f}"` applied to `minor_units / 100.0`, modelled by exact
fixed-point rendering of the rational value (the float detour of the code
is exact on every price whose quotient is representable). -/
def formatPrice (i : Int) : String :=
  if i < 0 then "-" ++ formatCents i.natAbs else formatCents i.natAbs

/-- `f"https://beautederm.sg/collections/all/products/{handle}"`; a missing
handle interpolates as the text `None`, as Python renders it. -/
def productUrl (handle : Option String) : String :=
  "https://beautederm.sg/collections/all/products/" ++
    (match handle with
     | some h => h
     | none => "None")

/-- The `product_info` dict literal of `parse_html_file`, given the decoded
payload and the `parsed_details` SectionMap. -/
def buildProductInfo (pl : RawProductPayload) (parsed_details : SectionMap) :
    ProductInfo where
  product_id := pl.id
  title := pl.title
  price_dollars := formatPrice (pl.price.getD 0)
  stock_status := if pl.available.getD false then "In Stock" else "Sold Out"
  product_type := pl.type
  vendor := pl.vendor
  tags := String.intercalate ", " (pl.tags.getD [])
  description := parsed_details "description"
  benefits := parsed_details "benefits"
  how_to_use :=
    match parsed_details "how_to_use" with
    | some v => some v
    | none => parsed_details "directions_for_use"
  ingredients := parsed_details "ingredients"
  specifications :=
    match parsed_details "details" with
    | some v => some v
    | none => parsed_details "specification"
  care_instructions := parsed_details "care"
  inclusions := parsed_details "inclusions"
  product_url := productUrl pl.handle
  primary_image_url := pl.featured_image

/-- Normalize one item's payload: parse its description, then build the row. -/
def normalizeItem (pl : RawProductPayload) : ProductInfo :=
  buildProductInfo pl (parseProductDetails pl.description)

/-- One `li class="productgrid--item"` container, at the granularity the
loop in `parse_html_file` distinguishes: no embedded structured-data script
(silently skipped), a script whose content fails to decode (reported and
skipped), or a decoded payload. -/
inductive Item where
  | noScript : Item
  | badJson : Item
  | ok : RawProductPayload → Item
deriving DecidableEq

/-- What the loop body contributes for one item: a row for a decoded
payload, nothing for the two skip paths. -/
def itemToProduct : Item → Option ProductInfo
  | Item.noScript => none
  | Item.badJson => none
  | Item.ok pl => some (normalizeItem pl)

/-- A document, reduced to its list of product containers. -/
abbrev Doc := List Item

/-- `parse_html_file`: every decoded payload yields a row, in document
order; skip paths contribute nothing and processing continues. -/
def parseHtmlFile (items : Doc) : List ProductInfo :=
  items.filterMap itemToProduct

/-- The dedup step of `main`'s inner loop: append the product and record
its identifier unless the identifier was already seen. -/
def aggStep (st : List ProductInfo × List (Option Int)) (p : ProductInfo) :
    List ProductInfo × List (Option Int) :=
  if p.product_id ∈ st.2 then st else (st.1 ++ [p], st.2 ++ [p.product_id])

/-- Process one document: extract its products and fold the dedup step. -/
def processDoc (st : List ProductInfo × List (Option Int)) (doc : Doc) :
    List ProductInfo × List (Option Int) :=
  (parseHtmlFile doc).foldl aggStep st

/-- The Catalog Aggregator of `main`: fold all documents in order, starting
from an empty catalog and an empty `processed_ids` set. -/
def aggregate (docs : List Doc) : List ProductInfo :=
  (docs.foldl processDoc ([], [])).1

/-- The concatenated per-document extraction stream, in processing order. -/
def extractStream (docs : List Doc) : List ProductInfo :=
  (docs.map parseHtmlFile).flatten

/-- `column_order` of `main`, verbatim. -/
def column_order : List String :=
  ["product_id", "title", "price ($)", "stock_status", "product_type",
   "vendor", "tags", "description", "benefits", "how_to_use",
   "ingredients", "specifications", "inclusions", "care_instructions",
   "product_url", "primary_image_url"]

/-- One row as the key/value pairs of the `product_info` dict, in the
literal's order; every key is always present, optional fields carry their
possibly-`none` value. -/
def asRow (p : ProductInfo) : List (String × Option String) :=
  [("product_id", p.product_id.map toString),
   ("title", p.title),
   ("price ($)", some p.price_dollars),
   ("stock_status", some p.stock_status),
   ("product_type", p.product_type),
   ("vendor", p.vendor),
   ("tags", some p.tags),
   ("description", p.description),
   ("benefits", p.benefits),
   ("how_to_use", p.how_to_use),
   ("ingredients", p.ingredients),
   ("specifications", p.specifications),
   ("care_instructions", p.care_instructions),
   ("inclusions", p.inclusions),
   ("product_url", some p.product_url),
   ("primary_image_url", p.primary_image_url)]

/-- `df.columns` for the DataFrame built from the rows: the union of the
rows' key sets. -/
def dfColumns (rows : List ProductInfo) : List String :=
  ((rows.map (fun r => (asRow r).map Prod.fst)).flatten).dedup

/-- The exporter's column selection:
`[col for col in column_order if col in df.columns]`. -/
def exportColumns (rows : List ProductInfo) : List String :=
  column_order.filter (fun c => decide (c ∈ dfColumns rows))

/-- The keys of the `product_info` dict literal, in the literal's order. -/
def dictKeys : List String :=
  ["product_id", "title", "price ($)", "stock_status", "product_type",
   "vendor", "tags", "description", "benefits", "how_to_use",
   "ingredients", "specifications", "care_instructions", "inclusions",
   "product_url", "primary_image_url"]

/-- Replace every maximal whitespace run by a single underscore; the flag
records whether the previous character belonged to a whitespace run. -/
def collapseAux : Bool → List Char → List Char
  | _, [] => []
  | prevWs, c :: cs =>
    if c.isWhitespace then
      if prevWs then collapseAux true cs else '_' :: collapseAux true cs
    else c :: collapseAux false cs

/-- The headline-to-key normalization as the specification words it:
lowercase, trim, then replace each internal whitespace run by a single
underscore.  Kept side by side with `normalizeHeadline` (the code's
normalization) to compare the two. -/
def specHeadlineKey (s : String) : String :=
  String.mk (collapseAux false (pyLower (pyStripStr s)).data)

/-- `true` when no two adjacent characters of the list are both spaces. -/
def noDoubleSpace : List Char → Bool
  | [] => true
  | [_] => true
  | a :: b :: rest => (decide ¬(a = ' ' ∧ b = ' ')) && noDoubleSpace (b :: rest)

/-- The catalog dedup loop rephrased as a recursion over the product
stream, used to characterise `aggregate`. -/
def dedupFirst : List (Option Int) → List ProductInfo → List ProductInfo
  | _, [] => []
  | seen, p :: l =>
    if p.product_id ∈ seen then dedupFirst seen l
    else p :: dedupFirst (seen ++ [p.product_id]) l

/-! ## Section Parser lemmas -/

theorem mapInsert_self (m : SectionMap) (k v : String) :
    mapInsert m k v k = some v := by
  simp [mapInsert]

theorem stepDetails_preserves (m : SectionMap) (dt : DetailsTag) (k : String)
    (h : m k ≠ none) : stepDetails m dt k ≠ none := by
  unfold stepDetails
  cases hs : dt.summary with
  | none => exact h
  | some s =>
    cases hc : dt.content with
    | none => exact h
    | some texts =>
      simp only [mapInsert]
      split
      · simp
      · exact h

theorem foldl_stepDetails_preserves (l : List DetailsTag) :
    ∀ (m : SectionMap) (k : String), m k ≠ none →
      (l.foldl stepDetails m) k ≠ none := by
  induction l with
  | nil => intro m k h; exact h
  | cons dt l ih =>
    intro m k h
    exact ih (stepDetails m dt) k (stepDetails_preserves m dt k h)

theorem stepDetails_insert (m : SectionMap) (dt : DetailsTag)
    (s : SummaryTag) (texts : List String)
    (hs : dt.summary = some s) (hc : dt.content = some texts) :
    stepDetails m dt (headlineKey s) = some (joinedTexts texts) := by
  unfold stepDetails
  rw [hs, hc]
  exact mapInsert_self m (headlineKey s) (joinedTexts texts)

theorem parseProductDetails_key_present (fp : Option String)
    (pre post : List DetailsTag) (dt : DetailsTag) (s : SummaryTag)
    (texts : List String)
    (hs : dt.summary = some s) (hc : dt.content = some texts) :
    parseProductDetails (some ⟨fp, pre ++ dt :: post⟩) (headlineKey s) ≠ none := by
  show ((pre ++ dt :: post).foldl stepDetails
    (mapInsert emptySectionMap "description" (fp.getD ""))) (headlineKey s) ≠ none
  rw [List.foldl_append, List.foldl_cons]
  apply foldl_stepDetails_preserves
  rw [stepDetails_insert _ dt s texts hs hc]
  simp

/-! ## Claims C2 and C4: fallback key and empty content -/

/-- **C2** counterexample.  The claim says a sub-section with absent
headline text is still recorded under `general_details`.  A `details`
element with no `summary` at all (so certainly no headline text), even one
with non-empty content, is skipped entirely by the loop's
`if not summary: continue`, so the map has no `general_details` key. -/
theorem c2_counterexample :
    parseProductDetails
      (some ⟨none, [⟨none, some ["Rich in vitamin C"]⟩]⟩)
      "general_details" = none := by
  decide

/-- **C2** (amended).  A sub-section is recorded under the fallback key
`general_details` when its headline span is absent, provided the
sub-section has a `summary` element and a content region; a sub-section
without a `summary` element contributes nothing to the SectionMap. -/
theorem c2_fallback_key_needs_summary_and_content (fp : Option String)
    (pre post : List DetailsTag) (dt : DetailsTag) (s : SummaryTag)
    (texts : List String)
    (hs : dt.summary = some s) (hh : s.headline = none)
    (hc : dt.content = some texts) :
    parseProductDetails (some ⟨fp, pre ++ dt :: post⟩) "general_details" ≠ none ∧
    ∀ (m : SectionMap) (c : Option (List String)), stepDetails m ⟨none, c⟩ = m := by
  constructor
  · have hkey : headlineKey s = "general_details" := by
      unfold headlineKey
      rw [hh]
    have h := parseProductDetails_key_present fp pre post dt s texts hs hc
    rwa [hkey] at h
  · intro m c
    rfl

/-- **C2** witness: a description with one sub-section whose summary has no
headline span and whose content region holds one paragraph does get a
`general_details` entry. -/
theorem c2_fallback_witness :
    parseProductDetails
      (some ⟨none, [⟨some ⟨none⟩, some ["Made in Singapore"]⟩]⟩)
      "general_details" ≠ none :=
  (c2_fallback_key_needs_summary_and_content none [] []
    ⟨some ⟨none⟩, some ["Made in Singapore"]⟩ ⟨none⟩ ["Made in Singapore"]
    rfl rfl rfl).1

/-- **C4** (confirmed).  A sub-section whose content region is present but
empty (its collected texts join and strip to the empty string) gets its key
inserted with value `""` by the loop step, and the key is present — not
omitted — in the final SectionMap of any description containing it. -/
theorem c4_empty_content_key_present (fp : Option String)
    (pre post : List DetailsTag) (dt : DetailsTag) (s : SummaryTag)
    (texts : List String)
    (hs : dt.summary = some s) (hc : dt.content = some texts)
    (hempty : joinedTexts texts = "") :
    (∀ m : SectionMap, stepDetails m dt (headlineKey s) = some "") ∧
    parseProductDetails (some ⟨fp, pre ++ dt :: post⟩) (headlineKey s) ≠ none := by
  constructor
  · intro m
    rw [stepDetails_insert m dt s texts hs hc, hempty]
  · exact parseProductDetails_key_present fp pre post dt s texts hs hc

/-- **C4** witness: a `Benefits` sub-section whose content div contains no
paragraph, list-item or heading yields `benefits ↦ ""`, key present. -/
theorem c4_empty_content_witness :
    (stepDetails emptySectionMap ⟨some ⟨some "Benefits"⟩, some []⟩
        (headlineKey ⟨some "Benefits"⟩) = some "") ∧
    parseProductDetails
      (some ⟨none, [⟨some ⟨some "Benefits"⟩, some []⟩]⟩)
      (headlineKey ⟨some "Benefits"⟩) ≠ none := by
  have h := c4_empty_content_key_present none [] []
    ⟨some ⟨some "Benefits"⟩, some []⟩ ⟨some "Benefits"⟩ [] rfl rfl (by decide)
  exact ⟨h.1 emptySectionMap, h.2⟩

/-! ## Claim C3: headline key normalization -/

theorem noDoubleSpace_cons_cons (a b : Char) (l : List Char)
    (h : noDoubleSpace (a :: b :: l) = true) :
    ¬(a = ' ' ∧ b = ' ') ∧ noDoubleSpace (b :: l) = true := by
  unfold noDoubleSpace at h
  simp only [Bool.and_eq_true, decide_eq_true_eq] at h
  exact h

theorem noDoubleSpace_tail (a : Char) (l : List Char)
    (h : noDoubleSpace (a :: l) = true) : noDoubleSpace l = true := by
  cases l with
  | nil => rfl
  | cons b bs => exact (noDoubleSpace_cons_cons a b bs h).2

theorem collapseAux_true_of_head_not_ws (l : List Char)
    (h : ∀ c, l.head? = some c → c.isWhitespace = false) :
    collapseAux true l = collapseAux false l := by
  cases l with
  | nil => rfl
  | cons c cs =>
    have hc := h c rfl
    simp [collapseAux, hc]

theorem collapseAux_eq_map (l : List Char)
    (h1 : ∀ c ∈ l, c.isWhitespace = true → c = ' ')
    (h2 : noDoubleSpace l = true) :
    collapseAux false l = l.map (fun c => if c = ' ' then '_' else c) := by
  induction l with
  | nil => rfl
  | cons c cs ih =>
    by_cases hws : c.isWhitespace = true
    · have hc : c = ' ' := h1 c (List.mem_cons_self c cs) hws
      subst hc
      cases cs with
      | nil => decide
      | cons b bs =>
        have hnd := noDoubleSpace_cons_cons ' ' b bs h2
        have hb : b ≠ ' ' := fun hb => hnd.1 ⟨rfl, hb⟩
        have hbws : b.isWhitespace = false := by
          by_cases hbw : b.isWhitespace = true
          · exact absurd (h1 b (by simp) hbw) hb
          · exact Bool.eq_false_iff.mpr hbw
        have e1 : collapseAux false (' ' :: b :: bs) =
            '_' :: collapseAux true (b :: bs) := rfl
        rw [e1, collapseAux_true_of_head_not_ws (b :: bs)
              (fun d hd => by simp at hd; rw [← hd]; exact hbws),
            ih (fun d hd hw => h1 d (List.mem_cons_of_mem _ hd) hw) hnd.2]
        rfl
    · have hc : c ≠ ' ' := fun h => hws (by rw [h]; decide)
      have e1 : collapseAux false (c :: cs) = c :: collapseAux false cs := by
        simp [collapseAux, hws]
      rw [e1, ih (fun d hd hw => h1 d (List.mem_cons_of_mem _ hd) hw)
            (noDoubleSpace_tail c cs h2), List.map_cons, if_neg hc]

/-- **C3** counterexample.  The claim says any internal whitespace run,
including two or more spaces, becomes a single underscore.  The code's
`.replace(' ', '_')` maps each space to its own underscore, so the
headline `How  To Use` (two spaces) yields key `how__to_use`, not the
`how_to_use` the claim prescribes. -/
theorem c3_counterexample :
    normalizeHeadline "How  To Use" = "how__to_use" ∧
    specHeadlineKey "How  To Use" = "how_to_use" ∧
    normalizeHeadline "How  To Use" ≠ "how_to_use" := by
  decide

/-- **C3** (amended).  The key is the headline text lowercased, trimmed,
with each single space character replaced by one underscore; this agrees
with the spec's run-collapsing normalization exactly when the trimmed,
lowercased headline has no whitespace other than spaces and no two
adjacent spaces.  (`How To Use` still yields `how_to_use`.) -/
theorem c3_headline_key_agreement (s : String)
    (h1 : ∀ c ∈ (pyLower (pyStripStr s)).data, c.isWhitespace = true → c = ' ')
    (h2 : noDoubleSpace (pyLower (pyStripStr s)).data = true) :
    normalizeHeadline s = specHeadlineKey s := by
  unfold normalizeHeadline specHeadlineKey
  rw [collapseAux_eq_map _ h1 h2]

/-- **C3** witness: for the single-spaced headlines of the spec's concrete
scenario the two normalizations agree and give the prescribed keys. -/
theorem c3_headline_key_witness :
    (∀ c ∈ (pyLower (pyStripStr "How To Use")).data,
        c.isWhitespace = true → c = ' ') ∧
    noDoubleSpace (pyLower (pyStripStr "How To Use")).data = true ∧
    normalizeHeadline "How To Use" = specHeadlineKey "How To Use" ∧
    normalizeHeadline "How To Use" = "how_to_use" ∧
    normalizeHeadline "Directions For Use" = "directions_for_use" :=
  ⟨by decide, by decide,
   c3_headline_key_agreement "How To Use" (by decide) (by decide),
   by decide, by decide⟩

/-! ## Claims C1, C5, C6, C10: the Record Normalizer -/

/-- A payload whose embedded JSON has no `id` key. -/
def plNoId : RawProductPayload :=
  ⟨none, some "Mystery Serum", some "mystery-serum", some 1550, some true,
   none, none, none, none, none⟩

/-- A fully populated sample payload (identifier 1001, price 2550 minor
units, available). -/
def plSample : RawProductPayload :=
  ⟨some 1001, some "Hydrating Toner", some "hydrating-toner", some 2550,
   some true, some "Skincare", some "Beautederm",
   some ["toner", "hydrating"], none, some "https://cdn.example/img.jpg"⟩

/-- A payload whose embedded JSON has no `price` key. -/
def plNoPrice : RawProductPayload :=
  ⟨some 2002, some "Cleansing Bar", some "cleansing-bar", none, none,
   none, none, none, none, none⟩

/-- **C1** counterexample.  The claim says a payload with a null/absent
identifier is rejected and not emitted.  The code reads the identifier
with `product_json.get('id')` and never checks it: the item is emitted,
with a null `product_id`. -/
theorem c1_counterexample :
    parseHtmlFile [Item.ok plNoId] = [normalizeItem plNoId] ∧
    (normalizeItem plNoId).product_id = none := by
  decide

/-- **C1** (amended).  A payload whose identifier is null or absent is not
rejected: it is normalized and emitted into the extracted product list
with a null identifier, and processing of the remaining items continues
(every decoded payload of the document contributes its row). -/
theorem c1_null_id_emitted (items : Doc) (pl : RawProductPayload)
    (hid : pl.id = none) (hmem : Item.ok pl ∈ items) :
    normalizeItem pl ∈ parseHtmlFile items ∧
    (normalizeItem pl).product_id = none := by
  refine ⟨List.mem_filterMap.mpr ⟨Item.ok pl, hmem, rfl⟩, ?_⟩
  exact hid

/-- **C1** witness: the id-less sample payload is emitted. -/
theorem c1_null_id_witness :
    normalizeItem plNoId ∈ parseHtmlFile [Item.ok plNoId] ∧
    (normalizeItem plNoId).product_id = none :=
  c1_null_id_emitted [Item.ok plNoId] plNoId rfl (by decide)

/-- **C5** (confirmed).  The `how_to_use` output field takes the value
stored under `how_to_use` whenever that key is present — in particular
when `directions_for_use` is also present — and falls back to
`directions_for_use` exactly when `how_to_use` is absent. -/
theorem c5_alias_priority (pl : RawProductPayload) (m : SectionMap) :
    (∀ v, m "how_to_use" = some v →
      (buildProductInfo pl m).how_to_use = some v) ∧
    (m "how_to_use" = none →
      (buildProductInfo pl m).how_to_use = m "directions_for_use") := by
  have e : (buildProductInfo pl m).how_to_use =
      match m "how_to_use" with
      | some v => some v
      | none => m "directions_for_use" := rfl
  constructor
  · intro v hv
    rw [e, hv]
  · intro hn
    rw [e, hn]

/-- A SectionMap holding both `how_to_use` and `directions_for_use`. -/
def mBothAliases : SectionMap :=
  mapInsert (mapInsert emptySectionMap "directions_for_use" "Spray twice daily.")
    "how_to_use" "Apply a thin layer."

/-- **C5** witness: with both aliases present, `how_to_use` wins. -/
theorem c5_alias_priority_witness :
    (buildProductInfo plSample mBothAliases).how_to_use =
      some "Apply a thin layer." ∧
    mBothAliases "directions_for_use" = some "Spray twice daily." :=
  ⟨(c5_alias_priority plSample mBothAliases).1 _ (by decide), by decide⟩

theorem pad2_length (c : Nat) (h : c < 100) : (pad2 c).length = 2 := by
  revert h
  revert c
  decide

/-- **C6** (confirmed, with the code's float division modelled as exact
fixed-point rendering).  For a payload with minor-unit price `p`, the
formatted price is the dollar part `p / 100` followed by a dot and exactly
two cent digits, whose value recomposes to `p`; availability `true` gives
stock status `In Stock`. -/
theorem c6_price_formatting (pl : RawProductPayload) (m : SectionMap)
    (p : Nat) (hp : pl.price = some (p : Int))
    (ha : pl.available = some true) :
    (buildProductInfo pl m).price_dollars =
      toString (p / 100) ++ "." ++ pad2 (p % 100) ∧
    (pad2 (p % 100)).length = 2 ∧
    100 * (p / 100) + p % 100 = p ∧
    (buildProductInfo pl m).stock_status = "In Stock" := by
  refine ⟨?_, pad2_length _ (Nat.mod_lt p (by norm_num)),
    Nat.div_add_mod p 100, ?_⟩
  · have e : (buildProductInfo pl m).price_dollars =
        formatPrice ((pl.price).getD 0) := rfl
    rw [e, hp]
    show formatPrice (p : Int) = _
    unfold formatPrice
    rw [if_neg (Int.not_lt.mpr (Int.natCast_nonneg p)), Int.natAbs_ofNat]
    rfl
  · have e : (buildProductInfo pl m).stock_status =
        if (pl.available).getD false then "In Stock" else "Sold Out" := rfl
    rw [e, ha]
    rfl

/-- **C6** witness: minor units 2550 with availability true render as
`25.50` and `In Stock`. -/
theorem c6_price_witness :
    (buildProductInfo plSample emptySectionMap).price_dollars = "25.50" ∧
    (buildProductInfo plSample emptySectionMap).stock_status = "In Stock" := by
  have h := c6_price_formatting plSample emptySectionMap 2550 rfl rfl
  exact ⟨h.1.trans (by decide), h.2.2.2⟩

/-- **C10** (confirmed).  A payload lacking the `price` key is still
emitted, with the missing price defaulting to zero minor units and thus
formatted price `0.00`. -/
theorem c10_missing_price_defaults (items : Doc) (pl : RawProductPayload)
    (hp : pl.price = none) (hmem : Item.ok pl ∈ items) :
    (normalizeItem pl).price_dollars = "0.00" ∧
    normalizeItem pl ∈ parseHtmlFile items := by
  constructor
  · have e : (normalizeItem pl).price_dollars =
        formatPrice ((pl.price).getD 0) := rfl
    rw [e, hp]
    decide
  · exact List.mem_filterMap.mpr ⟨Item.ok pl, hmem, rfl⟩

/-- **C10** witness: the price-less sample payload is emitted at `0.00`. -/
theorem c10_missing_price_witness :
    (normalizeItem plNoPrice).price_dollars = "0.00" ∧
    normalizeItem plNoPrice ∈ parseHtmlFile [Item.ok plNoPrice] :=
  c10_missing_price_defaults [Item.ok plNoPrice] plNoPrice rfl (by decide)

/-! ## Claims C7 and C8: the Catalog Aggregator -/

theorem foldl_aggStep_fst (l : List ProductInfo) :
    ∀ (acc : List ProductInfo) (seen : List (Option Int)),
      (l.foldl aggStep (acc, seen)).1 = acc ++ dedupFirst seen l := by
  induction l with
  | nil =>
    intro acc seen
    simp [dedupFirst]
  | cons p l ih =>
    intro acc seen
    by_cases h : p.product_id ∈ seen
    · have e : aggStep (acc, seen) p = (acc, seen) := by
        simp [aggStep, h]
      rw [List.foldl_cons, e, ih]
      simp [dedupFirst, h]
    · have e : aggStep (acc, seen) p = (acc ++ [p], seen ++ [p.product_id]) := by
        simp [aggStep, h]
      rw [List.foldl_cons, e, ih]
      simp [dedupFirst, h]

theorem foldl_aggStep_snd (l : List ProductInfo) :
    ∀ (acc : List ProductInfo) (seen : List (Option Int)),
      (l.foldl aggStep (acc, seen)).2 =
        seen ++ (dedupFirst seen l).map (fun p => p.product_id) := by
  induction l with
  | nil =>
    intro acc seen
    simp [dedupFirst]
  | cons p l ih =>
    intro acc seen
    by_cases h : p.product_id ∈ seen
    · have e : aggStep (acc, seen) p = (acc, seen) := by
        simp [aggStep, h]
      rw [List.foldl_cons, e, ih]
      simp [dedupFirst, h]
    · have e : aggStep (acc, seen) p = (acc ++ [p], seen ++ [p.product_id]) := by
        simp [aggStep, h]
      rw [List.foldl_cons, e, ih]
      simp [dedupFirst, h]

theorem dedupFirst_not_seen (l : List ProductInfo) :
    ∀ (seen : List (Option Int)) (p : ProductInfo),
      p ∈ dedupFirst seen l → p.product_id ∉ seen := by
  induction l with
  | nil =>
    intro seen p hp
    simp [dedupFirst] at hp
  | cons q l ih =>
    intro seen p hp
    by_cases h : q.product_id ∈ seen
    · simp only [dedupFirst, if_pos h] at hp
      exact ih seen p hp
    · simp only [dedupFirst, if_neg h] at hp
      rcases List.mem_cons.mp hp with rfl | hp'
      · exact h
      · intro hc
        exact ih (seen ++ [q.product_id]) p hp' (List.mem_append_left _ hc)

theorem dedupFirst_pairwise (l : List ProductInfo) :
    ∀ seen : List (Option Int),
      (dedupFirst seen l).Pairwise (fun a b => a.product_id ≠ b.product_id) := by
  induction l with
  | nil =>
    intro seen
    simp [dedupFirst]
  | cons q l ih =>
    intro seen
    by_cases h : q.product_id ∈ seen
    · simpa only [dedupFirst, if_pos h] using ih seen
    · simp only [dedupFirst, if_neg h]
      refine List.Pairwise.cons ?_ (ih _)
      intro b hb hc
      exact dedupFirst_not_seen l (seen ++ [q.product_id]) b hb
        (List.mem_append_right _ (by simp [← hc]))

theorem dedupFirst_find (l : List ProductInfo) :
    ∀ (seen : List (Option Int)) (p : ProductInfo),
      p ∈ dedupFirst seen l →
      l.find? (fun q => decide (q.product_id = p.product_id)) = some p := by
  induction l with
  | nil =>
    intro seen p hp
    simp [dedupFirst] at hp
  | cons q l ih =>
    intro seen p hp
    by_cases h : q.product_id ∈ seen
    · simp only [dedupFirst, if_pos h] at hp
      have hne : q.product_id ≠ p.product_id := by
        intro hc
        exact dedupFirst_not_seen l seen p hp (hc ▸ h)
      rw [List.find?_cons_of_neg _ (by simpa using hne), ih seen p hp]
    · simp only [dedupFirst, if_neg h] at hp
      rcases List.mem_cons.mp hp with rfl | hp'
      · rw [List.find?_cons_of_pos _ (by simp)]
      · have hne : q.product_id ≠ p.product_id := by
          intro hc
          exact dedupFirst_not_seen l (seen ++ [q.product_id]) p hp'
            (List.mem_append_right _ (by simp [hc]))
        rw [List.find?_cons_of_neg _ (by simpa using hne), ih _ p hp']

theorem dedupFirst_cover (l : List ProductInfo) :
    ∀ (seen : List (Option Int)) (q : ProductInfo), q ∈ l →
      q.product_id ∈ seen ∨
      ∃ p ∈ dedupFirst seen l, p.product_id = q.product_id := by
  induction l with
  | nil =>
    intro seen q hq
    simp at hq
  | cons r l ih =>
    intro seen q hq
    by_cases h : r.product_id ∈ seen
    · simp only [dedupFirst, if_pos h]
      rcases List.mem_cons.mp hq with rfl | hq'
      · exact Or.inl h
      · exact ih seen q hq'
    · simp only [dedupFirst, if_neg h]
      rcases List.mem_cons.mp hq with rfl | hq'
      · exact Or.inr ⟨q, List.mem_cons_self _ _, rfl⟩
      · rcases ih (seen ++ [r.product_id]) q hq' with hin | ⟨p, hp, hpe⟩
        · rcases List.mem_append.mp hin with hin | hin
          · exact Or.inl hin
          · refine Or.inr ⟨r, List.mem_cons_self _ _, ?_⟩
            simp at hin
            exact hin.symm
        · exact Or.inr ⟨p, List.mem_cons_of_mem _ hp, hpe⟩

theorem foldl_processDoc_eq (docs : List Doc) :
    ∀ st, docs.foldl processDoc st = (extractStream docs).foldl aggStep st := by
  induction docs with
  | nil =>
    intro st
    rfl
  | cons d ds ih =>
    intro st
    have e : extractStream (d :: ds) = parseHtmlFile d ++ extractStream ds := by
      simp [extractStream]
    rw [List.foldl_cons, ih, e, List.foldl_append]
    rfl

theorem aggregate_eq_dedupFirst (docs : List Doc) :
    aggregate docs = dedupFirst [] (extractStream docs) := by
  unfold aggregate
  rw [foldl_processDoc_eq]
  simpa using foldl_aggStep_fst (extractStream docs) [] []

/-- **C7** (confirmed).  Over any ordered document list, no two retained
catalog entries share a `product_id`; every retained entry is the first
product with its identifier in the concatenated extraction stream (first
occurrence wins); and every extracted product's identifier is represented
in the catalog (later duplicates are dropped, not errors). -/
theorem c7_first_wins_unique (docs : List Doc) :
    (aggregate docs).Pairwise (fun a b => a.product_id ≠ b.product_id) ∧
    (∀ p ∈ aggregate docs,
      (extractStream docs).find?
        (fun q => decide (q.product_id = p.product_id)) = some p) ∧
    (∀ q ∈ extractStream docs,
      ∃ p ∈ aggregate docs, p.product_id = q.product_id) := by
  rw [aggregate_eq_dedupFirst]
  refine ⟨dedupFirst_pairwise _ _, ?_, ?_⟩
  · intro p hp
    exact dedupFirst_find _ _ _ hp
  · intro q hq
    rcases dedupFirst_cover _ [] q hq with h | h
    · simp at h
    · exact h

/-- The sample payload's identifier 1001 under a different title. -/
def plDup : RawProductPayload :=
  ⟨some 1001, some "Renamed Toner", some "renamed-toner", some 3000,
   some false, none, none, none, none, none⟩

/-- **C7** witness: two documents both carrying identifier 1001; the
catalog keeps the first document's product and stays duplicate-free. -/
theorem c7_first_wins_witness :
    (extractStream [[Item.ok plSample], [Item.ok plDup]]).find?
      (fun q => decide (q.product_id = (normalizeItem plSample).product_id)) =
      some (normalizeItem plSample) ∧
    (aggregate [[Item.ok plSample], [Item.ok plDup]]).Pairwise
      (fun a b => a.product_id ≠ b.product_id) := by
  have h := c7_first_wins_unique [[Item.ok plSample], [Item.ok plDup]]
  exact ⟨h.2.1 (normalizeItem plSample) (by decide), h.1⟩

theorem foldl_aggStep_noop (l : List ProductInfo) :
    ∀ (acc : List ProductInfo) (seen : List (Option Int)),
      (∀ p ∈ l, p.product_id ∈ seen) →
      l.foldl aggStep (acc, seen) = (acc, seen) := by
  induction l with
  | nil =>
    intro acc seen _
    rfl
  | cons p l ih =>
    intro acc seen h
    have e : aggStep (acc, seen) p = (acc, seen) := by
      simp [aggStep, h p (List.mem_cons_self p l)]
    rw [List.foldl_cons, e]
    exact ih acc seen (fun q hq => h q (List.mem_cons_of_mem _ hq))

/-- **C8** (confirmed).  Appending a second copy of a document already in
the list changes nothing: the resulting catalog equals the one obtained
without the repeated document. -/
theorem c8_dedup_idempotent (docs : List Doc) (d : Doc) (hd : d ∈ docs) :
    aggregate (docs ++ [d]) = aggregate docs := by
  unfold aggregate
  rw [List.foldl_append]
  set st := docs.foldl processDoc ([], []) with hst
  show (processDoc st d).1 = st.1
  have hstream : st = (extractStream docs).foldl aggStep ([], []) := by
    rw [hst, foldl_processDoc_eq]
  have hmem : ∀ p ∈ parseHtmlFile d, p.product_id ∈ st.2 := by
    intro p hp
    have hq : p ∈ extractStream docs := by
      simp only [extractStream, List.mem_flatten]
      exact ⟨parseHtmlFile d, List.mem_map_of_mem _ hd, hp⟩
    rcases dedupFirst_cover (extractStream docs) [] p hq with h | ⟨r, hr, hre⟩
    · simp at h
    · rw [hstream, foldl_aggStep_snd]
      simp only [List.nil_append]
      exact List.mem_map.mpr ⟨r, hr, hre⟩
  have hfix : processDoc st d = st := by
    show (parseHtmlFile d).foldl aggStep st = st
    calc (parseHtmlFile d).foldl aggStep st
        = (parseHtmlFile d).foldl aggStep (st.1, st.2) := rfl
      _ = (st.1, st.2) := foldl_aggStep_noop _ st.1 st.2 hmem
      _ = st := rfl
  rw [hfix]

/-- **C8** witness: processing the same one-product document twice yields
the same catalog as processing it once. -/
theorem c8_dedup_idempotent_witness :
    aggregate [[Item.ok plSample], [Item.ok plSample]] =
      aggregate [[Item.ok plSample]] :=
  c8_dedup_idempotent [[Item.ok plSample]] [Item.ok plSample] (by decide)

/-! ## Claim C9: exporter column selection -/

theorem asRow_keys (p : ProductInfo) : (asRow p).map Prod.fst = dictKeys := rfl

/-- **C9** counterexample.  The claim says a column populated in no
retained record is omitted from the header.  Every `product_info` dict
carries all sixteen keys (unpopulated fields hold `None`), so
`df.columns` always contains them all and the
`[col for col in column_order if col in df.columns]` filter never drops a
column: a catalog in which no record populates `benefits` still exports a
`benefits` column. -/
theorem c9_counterexample :
    ((parseHtmlFile [Item.ok plSample]).all
        (fun r => decide (r.benefits = none))) = true ∧
    "benefits" ∈ exportColumns (parseHtmlFile [Item.ok plSample]) := by
  decide

/-- **C9** (amended).  The exported table uses the fixed column order of
`column_order`; since every record carries every key (absent fields as
null), all sixteen columns appear whenever at least one record is
retained, populated or not — the omission filter never removes one. -/
theorem c9_fixed_columns (rows : List ProductInfo) (h : rows ≠ []) :
    exportColumns rows = column_order := by
  cases rows with
  | nil => exact absurd rfl h
  | cons r rest =>
    unfold exportColumns
    apply List.filter_eq_self.mpr
    intro c hc
    simp only [decide_eq_true_eq]
    show c ∈ dfColumns (r :: rest)
    unfold dfColumns
    rw [List.mem_dedup]
    apply List.mem_flatten.mpr
    refine ⟨(asRow r).map Prod.fst, ?_, ?_⟩
    · exact List.mem_map_of_mem _ (List.mem_cons_self _ _)
    · rw [asRow_keys]
      have hall : ∀ x ∈ column_order, x ∈ dictKeys := by decide
      exact hall c hc

/-- **C9** witness: a one-product catalog exports exactly the sixteen
columns in the fixed order. -/
theorem c9_fixed_columns_witness :
    exportColumns [normalizeItem plSample] = column_order :=
  c9_fixed_columns [normalizeItem plSample] (List.cons_ne_nil _ _)

end BeautedermExtract
